import Mathlib

/-!
Shallow embedding of `readext_rs` (src/lib.rs): a reader-extension trait
adding fixed-width integer readers, length-prefixed array readers, and an
Unreal-style FString reader on top of any sequential byte source.

The byte source (`impl ReadBytesExt + io::Read`) is modelled as a list of
bytes together with a cursor position.  `read_exact` succeeds iff enough
bytes remain, advancing the cursor; on failure it reports an I/O error
(position after a failed read is unspecified by the source; we advance to
the end of the data, matching the default `Read::read_exact` loop).

Rust `Result<T, Box<dyn Error>>` together with the possibility of a panic
is modelled by the three-way `Outcome`: `ok` (value and stream after),
`err` (typed error and stream after), `panicked` (process abort, with the
stream state at the point of the panic).  The typed errors that can occur
are io (`UnexpectedEof`), range (`TryFromIntError` from `usize::try_from`)
and utf8 (`FromUtf8Error`).

A caller-supplied element decoder `Fn(&mut Self) -> T` has no error
channel but may panic; it is modelled as `ByteStream → Option (α × ByteStream)`
with `none` standing for a panic inside the decoder (e.g. `.unwrap()` on a
failed read, as in the crate's own test suite).

Machine integers are `Int` with explicit reduction mod 2^32 where the
source does i32 arithmetic; overflow wraps (release-profile semantics;
debug builds would abort at the same spot, which does not change which
claims hold below).
-/

/-- A sequential byte source: the underlying bytes and a cursor. -/
structure ByteStream where
  data : List Nat
  pos : Nat
deriving DecidableEq, Repr

/-- Typed errors surfaced through `ReaderResult` (`Box<dyn Error>`). -/
inductive RError
  | ioError
  | rangeError
  | utf8Error
deriving DecidableEq, Repr

/-- The source of a process abort (`panic!`) in the crate. -/
inductive PanicKind
  | invalidFString
  | unicodeUnsupported
  | elementPanic
deriving DecidableEq, Repr

/-- Result of one reader call: success, typed error, or process abort. -/
inductive Outcome (α : Type)
  | ok : α → ByteStream → Outcome α
  | err : RError → ByteStream → Outcome α
  | panicked : PanicKind → ByteStream → Outcome α
deriving DecidableEq, Repr

namespace Outcome

/-- The stream as left behind by the call (for panics: at the abort). -/
def finalStream : Outcome α → ByteStream
  | .ok _ s => s
  | .err _ s => s
  | .panicked _ s => s

/-- Whether the call returned a typed error. -/
def isErr : Outcome α → Bool
  | .err _ _ => true
  | _ => false

/-- Whether the call aborted the process. -/
def isPanic : Outcome α → Bool
  | .panicked _ _ => true
  | _ => false

end Outcome

/-- `io::Read::read_exact`: consume exactly `n` bytes or fail with an
I/O error (`UnexpectedEof`). -/
def readExact (n : Nat) (s : ByteStream) : Outcome (List Nat) :=
  if s.pos + n ≤ s.data.length then
    .ok ((s.data.drop s.pos).take n) ⟨s.data, s.pos + n⟩
  else
    .err .ioError ⟨s.data, s.data.length⟩

/-- Value of a byte list read little-endian (least significant first). -/
def leNat : List Nat → Nat
  | [] => 0
  | b :: bs => b + 256 * leNat bs

/-- Value of a byte list read big-endian (most significant first). -/
def beNat (bs : List Nat) : Nat :=
  leNat bs.reverse

/-- Reinterpret an unsigned `w`-bit value as two's-complement signed. -/
def toSigned (w : Nat) (u : Nat) : Int :=
  if u < 2 ^ (w - 1) then (u : Int) else (u : Int) - 2 ^ w

/-- `i32::MIN`. -/
def i32min : Int := -(2 ^ 31)

/-- Wrap an integer to i32 two's-complement (release-mode overflow). -/
def wrap32 (x : Int) : Int :=
  toSigned 32 (x % 2 ^ 32).toNat

/-- `usize::try_from` on an i32 value: fails exactly when negative. -/
def usizeTryFrom (x : Int) : Option Nat :=
  if x < 0 then none else some x.toNat

/-- `read_i32_le`: 4 bytes, little-endian, signed. -/
def read_i32_le (s : ByteStream) : Outcome Int :=
  match readExact 4 s with
  | .ok bs s₁ => .ok (toSigned 32 (leNat bs)) s₁
  | .err e s₁ => .err e s₁
  | .panicked p s₁ => .panicked p s₁

/-- `read_u32_le`: 4 bytes, little-endian, unsigned. -/
def read_u32_le (s : ByteStream) : Outcome Nat :=
  match readExact 4 s with
  | .ok bs s₁ => .ok (leNat bs) s₁
  | .err e s₁ => .err e s₁
  | .panicked p s₁ => .panicked p s₁

/-- `read_i64_le`: 8 bytes, little-endian, signed. -/
def read_i64_le (s : ByteStream) : Outcome Int :=
  match readExact 8 s with
  | .ok bs s₁ => .ok (toSigned 64 (leNat bs)) s₁
  | .err e s₁ => .err e s₁
  | .panicked p s₁ => .panicked p s₁

/-- `read_u64_le`: 8 bytes, little-endian, unsigned. -/
def read_u64_le (s : ByteStream) : Outcome Nat :=
  match readExact 8 s with
  | .ok bs s₁ => .ok (leNat bs) s₁
  | .err e s₁ => .err e s₁
  | .panicked p s₁ => .panicked p s₁

/-- `read_i32_be`: 4 bytes, big-endian, signed. -/
def read_i32_be (s : ByteStream) : Outcome Int :=
  match readExact 4 s with
  | .ok bs s₁ => .ok (toSigned 32 (beNat bs)) s₁
  | .err e s₁ => .err e s₁
  | .panicked p s₁ => .panicked p s₁

/-- `read_u32_be`: 4 bytes, big-endian, unsigned. -/
def read_u32_be (s : ByteStream) : Outcome Nat :=
  match readExact 4 s with
  | .ok bs s₁ => .ok (beNat bs) s₁
  | .err e s₁ => .err e s₁
  | .panicked p s₁ => .panicked p s₁

/-- `read_i64_be`: 8 bytes, big-endian, signed. -/
def read_i64_be (s : ByteStream) : Outcome Int :=
  match readExact 8 s with
  | .ok bs s₁ => .ok (toSigned 64 (beNat bs)) s₁
  | .err e s₁ => .err e s₁
  | .panicked p s₁ => .panicked p s₁

/-- `read_u64_be`: 8 bytes, big-endian, unsigned. -/
def read_u64_be (s : ByteStream) : Outcome Nat :=
  match readExact 8 s with
  | .ok bs s₁ => .ok (beNat bs) s₁
  | .err e s₁ => .err e s₁
  | .panicked p s₁ => .panicked p s₁

/-- The `for _ in 0..length` loop of `read_array_with_length`: invoke the
element decoder `n` times in sequence, pushing each result.  A panic in
the decoder (`f s = none`) aborts the whole loop at that point. -/
def decodeLoop (f : ByteStream → Option (α × ByteStream)) :
    Nat → ByteStream → Outcome (List α)
  | 0, s => .ok [] s
  | n + 1, s =>
    match f s with
    | none => .panicked .elementPanic s
    | some (a, s₁) =>
      match decodeLoop f n s₁ with
      | .ok xs s₂ => .ok (a :: xs) s₂
      | .err e s₂ => .err e s₂
      | .panicked p s₂ => .panicked p s₂

/-- `read_array_with_length`: `usize::try_from(length)?` (range error on a
negative length), then run the element decoder `length` times. -/
def read_array_with_length (f : ByteStream → Option (α × ByteStream))
    (length : Int) (s : ByteStream) : Outcome (List α) :=
  match usizeTryFrom length with
  | none => .err .rangeError s
  | some n => decodeLoop f n s

/-- `read_array`: read a little-endian i32 length, then delegate to
`read_array_with_length`. -/
def read_array (f : ByteStream → Option (α × ByteStream))
    (s : ByteStream) : Outcome (List α) :=
  match read_i32_le s with
  | .ok length s₁ => read_array_with_length f length s₁
  | .err e s₁ => .err e s₁
  | .panicked p s₁ => .panicked p s₁

/-- `read_array_be`: read a big-endian i32 length, then delegate to
`read_array_with_length`. -/
def read_array_be (f : ByteStream → Option (α × ByteStream))
    (s : ByteStream) : Outcome (List α) :=
  match read_i32_be s with
  | .ok length s₁ => read_array_with_length f length s₁
  | .err e s₁ => .err e s₁
  | .panicked p s₁ => .panicked p s₁

/-- Is `b` a UTF-8 continuation byte (`0x80..=0xBF`)? -/
def isCont (b : Nat) : Bool :=
  0x80 ≤ b && b ≤ 0xBF

/-- Strict UTF-8 validation and decoding to Unicode code points, exactly
as `String::from_utf8` accepts: no overlong forms, no surrogates, nothing
above `U+10FFFF`.  Returns `none` iff the bytes are not valid UTF-8. -/
def utf8Decode : List Nat → Option (List Nat)
  | [] => some []
  | b :: rest =>
    if b ≤ 0x7F then
      (utf8Decode rest).map (b :: ·)
    else if 0xC2 ≤ b && b ≤ 0xDF then
      match rest with
      | c₁ :: r₂ =>
        if isCont c₁ then
          (utf8Decode r₂).map (fun t => ((b - 0xC0) * 0x40 + (c₁ - 0x80)) :: t)
        else none
      | _ => none
    else if 0xE0 ≤ b && b ≤ 0xEF then
      match rest with
      | c₁ :: c₂ :: r₃ =>
        if (if b = 0xE0 then 0xA0 ≤ c₁ && c₁ ≤ 0xBF
            else if b = 0xED then 0x80 ≤ c₁ && c₁ ≤ 0x9F
            else isCont c₁) && isCont c₂ then
          (utf8Decode r₃).map
            (fun t => ((b - 0xE0) * 0x1000 + (c₁ - 0x80) * 0x40 + (c₂ - 0x80)) :: t)
        else none
      | _ => none
    else if 0xF0 ≤ b && b ≤ 0xF4 then
      match rest with
      | c₁ :: c₂ :: c₃ :: r₄ =>
        if (if b = 0xF0 then 0x90 ≤ c₁ && c₁ ≤ 0xBF
            else if b = 0xF4 then 0x80 ≤ c₁ && c₁ ≤ 0x8F
            else isCont c₁) && isCont c₂ && isCont c₃ then
          (utf8Decode r₄).map
            (fun t => ((b - 0xF0) * 0x40000 + (c₁ - 0x80) * 0x1000 +
              (c₂ - 0x80) * 0x40 + (c₃ - 0x80)) :: t)
        else none
      | _ => none
    else none

/-- `read_fstring`: read a little-endian i32 length `L`, then:
`L = 0` empty string; `L = i32::MIN` panic; `L < 0` consume `-L * 2`
bytes (i32 arithmetic) then panic (UTF-16 payloads unimplemented);
`L > 0` consume `L` bytes and UTF-8-decode the first `L - 1` of them
(the trailing byte is dropped unchecked).  The decoded string is
represented by its list of Unicode code points. -/
def read_fstring (s : ByteStream) : Outcome (List Nat) :=
  match read_i32_le s with
  | .err e s₁ => .err e s₁
  | .panicked p s₁ => .panicked p s₁
  | .ok length s₁ =>
    if length = 0 then .ok [] s₁
    else if length < 0 then
      if length = i32min then .panicked .invalidFString s₁
      else
        match usizeTryFrom (wrap32 (-length * 2)) with
        | none => .err .rangeError s₁
        | some len =>
          match readExact len s₁ with
          | .ok _ s₂ => .panicked .unicodeUnsupported s₂
          | .err e s₂ => .err e s₂
          | .panicked p s₂ => .panicked p s₂
    else
      match usizeTryFrom (length - 1) with
      | none => .err .rangeError s₁
      | some len =>
        match usizeTryFrom length with
        | none => .err .rangeError s₁
        | some blen =>
          match readExact blen s₁ with
          | .ok buffer s₂ =>
            match utf8Decode (buffer.take len) with
            | some cps => .ok cps s₂
            | none => .err .utf8Error s₂
          | .err e s₂ => .err e s₂
          | .panicked p s₂ => .panicked p s₂

/-- The 4-byte little-endian encoding of an integer (wrapped to u32). -/
def encI32le (v : Int) : List Nat :=
  let u := (v % 2 ^ 32).toNat
  [u % 256, u / 256 % 256, u / 2 ^ 16 % 256, u / 2 ^ 24 % 256]

/-- The 4-byte big-endian encoding of an integer (wrapped to u32). -/
def encI32be (v : Int) : List Nat :=
  (encI32le v).reverse

/-- The element decoder used by the crate's own tests:
`|r| r.read_i32::<LittleEndian>().unwrap()` — infallible signature,
panics if the stream cannot supply 4 bytes. -/
def decI32le (s : ByteStream) : Option (Int × ByteStream) :=
  match read_i32_le s with
  | .ok v s₁ => some (v, s₁)
  | .err _ _ => none
  | .panicked _ _ => none

/-- Back-to-back little-endian i32 encoding of a list of values. -/
def encArrayI32 (vals : List Int) : List Nat :=
  vals.foldr (fun v acc => encI32le v ++ acc) []

/-- Decoder iteration as the specification describes it: invoke the
element decoder exactly `n` consecutive times against the stream,
collecting results in call order; the final stream is the one the last
invocation left behind.  `none` when some invocation panics. -/
def specIterDecode (f : ByteStream → Option (α × ByteStream)) :
    Nat → ByteStream → Option (List α × ByteStream)
  | 0, s => some ([], s)
  | n + 1, s =>
    match f s with
    | none => none
    | some (a, s₁) =>
      match specIterDecode f n s₁ with
      | none => none
      | some (xs, s₂) => some (a :: xs, s₂)

/-! ### Basic facts about the byte-level encodings -/

lemma encI32le_length (v : Int) : (encI32le v).length = 4 := rfl

lemma emod32_bounds (v : Int) : 0 ≤ v % 2 ^ 32 ∧ v % 2 ^ 32 < 2 ^ 32 :=
  ⟨Int.emod_nonneg v (by norm_num), Int.emod_lt_of_pos v (by norm_num)⟩

lemma leNat_encI32le (v : Int) : leNat (encI32le v) = (v % 2 ^ 32).toNat := by
  have h := emod32_bounds v
  have hlt : (v % 2 ^ 32).toNat < 2 ^ 32 := by omega
  simp only [encI32le, leNat]
  norm_num at hlt ⊢
  omega

lemma dec_enc_i32 (v : Int) (h₁ : -(2 ^ 31) ≤ v) (h₂ : v < 2 ^ 31) :
    toSigned 32 (leNat (encI32le v)) = v := by
  have h := emod32_bounds v
  rw [leNat_encI32le, toSigned]
  norm_num at h₁ h₂ h ⊢
  split <;> omega

lemma beNat_encI32be (v : Int) : beNat (encI32be v) = leNat (encI32le v) := by
  simp [beNat, encI32be]

lemma encI32be_length (v : Int) : (encI32be v).length = 4 := rfl

/-! ### Facts about `readExact` -/

lemma drop_length_eq (d pre tl : List Nat) (p : Nat) (h : d.drop p = pre ++ tl) :
    d.length - p = pre.length + tl.length := by
  have h₁ := congrArg List.length h
  simpa [List.length_drop] using h₁

lemma readExact_of_drop (d pre tl : List Nat) (p n : Nat)
    (h : d.drop p = pre ++ tl) (hn : pre.length = n) (h0 : 0 < n) :
    readExact n ⟨d, p⟩ = .ok pre ⟨d, p + n⟩ := by
  have hlen := drop_length_eq d pre tl p h
  have hle : p + n ≤ d.length := by omega
  unfold readExact
  simp only
  rw [if_pos hle, h, List.take_left' hn]

lemma readExact_err (d : List Nat) (p n : Nat) (h : d.length < p + n) :
    readExact n ⟨d, p⟩ = .err .ioError ⟨d, d.length⟩ := by
  unfold readExact
  simp only
  rw [if_neg (by omega)]

/-! ### Facts about the integer readers -/

lemma read_i32_le_of_drop (d tl : List Nat) (p : Nat) (v : Int)
    (h : d.drop p = encI32le v ++ tl) (h₁ : -(2 ^ 31) ≤ v) (h₂ : v < 2 ^ 31) :
    read_i32_le ⟨d, p⟩ = .ok v ⟨d, p + 4⟩ := by
  simp only [read_i32_le,
    readExact_of_drop d _ tl p 4 h (encI32le_length v) (by norm_num),
    dec_enc_i32 v h₁ h₂]

lemma read_i32_be_of_drop (d tl : List Nat) (p : Nat) (v : Int)
    (h : d.drop p = encI32be v ++ tl) (h₁ : -(2 ^ 31) ≤ v) (h₂ : v < 2 ^ 31) :
    read_i32_be ⟨d, p⟩ = .ok v ⟨d, p + 4⟩ := by
  simp only [read_i32_be,
    readExact_of_drop d _ tl p 4 h (encI32be_length v) (by norm_num),
    beNat_encI32be, dec_enc_i32 v h₁ h₂]

lemma read_i32_le_err (d : List Nat) (p : Nat) (h : d.length < p + 4) :
    read_i32_le ⟨d, p⟩ = .err .ioError ⟨d, d.length⟩ := by
  simp only [read_i32_le, readExact_err d p 4 h]

/-! ### Facts about the array-decoding loop -/

lemma encArrayI32_cons (v : Int) (vs : List Int) :
    encArrayI32 (v :: vs) = encI32le v ++ encArrayI32 vs := rfl

lemma decodeLoop_i32 (vals : List Int) :
    ∀ (d tl : List Nat) (p : Nat),
      (∀ v ∈ vals, -(2 ^ 31) ≤ v ∧ v < 2 ^ 31) →
      d.drop p = encArrayI32 vals ++ tl →
      decodeLoop decI32le vals.length ⟨d, p⟩ =
        .ok vals ⟨d, p + 4 * vals.length⟩ := by
  induction vals with
  | nil =>
    intro d tl p _ _
    simp [decodeLoop]
  | cons v vs ih =>
    intro d tl p hrange hdrop
    have hv := hrange v (List.mem_cons_self v vs)
    rw [encArrayI32_cons, List.append_assoc] at hdrop
    have hread := read_i32_le_of_drop d _ p v hdrop hv.1 hv.2
    have hd4 : d.drop (p + 4) = encArrayI32 vs ++ tl := by
      have h₁ := congrArg (List.drop 4) hdrop
      rw [List.drop_drop] at h₁
      rwa [List.drop_left' (encI32le_length v)] at h₁
    have hrest := ih d tl (p + 4)
      (fun w hw => hrange w (List.mem_cons_of_mem v hw)) hd4
    show decodeLoop decI32le (vs.length + 1) ⟨d, p⟩ = _
    unfold decodeLoop
    have hdec : decI32le ⟨d, p⟩ = some (v, ⟨d, p + 4⟩) := by
      simp only [decI32le, hread]
    rw [hdec]
    simp only [hrest]
    congr 1
    simp
    omega

lemma decodeLoop_eq_specIter (f : ByteStream → Option (α × ByteStream)) :
    ∀ (n : Nat) (s : ByteStream) (xs : List α) (s₂ : ByteStream),
      specIterDecode f n s = some (xs, s₂) →
      decodeLoop f n s = .ok xs s₂ ∧ xs.length = n := by
  intro n
  induction n with
  | zero =>
    intro s xs s₂ h
    simp only [specIterDecode, Option.some.injEq, Prod.mk.injEq] at h
    obtain ⟨h₁, h₂⟩ := h
    subst h₁; subst h₂
    exact ⟨rfl, rfl⟩
  | succ n ih =>
    intro s xs s₂ h
    unfold specIterDecode at h
    unfold decodeLoop
    cases hf : f s with
    | none => rw [hf] at h; exact absurd h (by simp)
    | some as =>
      obtain ⟨a, s₁⟩ := as
      rw [hf] at h
      simp only at h
      cases hit : specIterDecode f n s₁ with
      | none => rw [hit] at h; exact absurd h (by simp)
      | some p₂ =>
        obtain ⟨ys, s₃⟩ := p₂
        rw [hit] at h
        simp only [Option.some.injEq, Prod.mk.injEq] at h
        rcases h with ⟨rfl, rfl⟩
        obtain ⟨hl, hn⟩ := ih s₁ ys s₃ hit
        simp [hl, hn]

lemma decodeLoop_total (f : ByteStream → Option (α × ByteStream))
    (hf : ∀ t, (f t).isSome) :
    ∀ (n : Nat) (s : ByteStream),
      ∃ xs s₂, decodeLoop f n s = .ok xs s₂ ∧ xs.length = n := by
  intro n
  induction n with
  | zero => intro s; exact ⟨[], s, rfl, rfl⟩
  | succ n ih =>
    intro s
    cases hfs : f s with
    | none => exact absurd (hf s) (by rw [hfs]; simp)
    | some as =>
      obtain ⟨a, s₁⟩ := as
      obtain ⟨xs, s₂, hl, hn⟩ := ih s₁
      refine ⟨a :: xs, s₂, ?_, by simp [hn]⟩
      unfold decodeLoop
      rw [hfs]
      simp only [hl]

lemma decodeLoop_not_err (f : ByteStream → Option (α × ByteStream)) :
    ∀ (n : Nat) (s : ByteStream) (e : RError) (s₂ : ByteStream),
      decodeLoop f n s ≠ .err e s₂ := by
  intro n
  induction n with
  | zero => intro s e s₂ h; exact Outcome.noConfusion h
  | succ n ih =>
    intro s e s₂ h
    unfold decodeLoop at h
    cases hf : f s with
    | none => rw [hf] at h; exact Outcome.noConfusion h
    | some as =>
      obtain ⟨a, s₁⟩ := as
      rw [hf] at h
      simp only at h
      cases hl : decodeLoop f n s₁ with
      | ok xs s₃ => rw [hl] at h; exact Outcome.noConfusion h
      | err e₃ s₃ => exact ih s₁ e₃ s₃ hl
      | panicked p₃ s₃ => rw [hl] at h; exact Outcome.noConfusion h

/-! ### Facts about `read_fstring` -/

lemma int_pow31 : (2 : Int) ^ 31 = 2147483648 := by norm_num

lemma int_pow32 : (2 : Int) ^ 32 = 4294967296 := by norm_num

lemma drop4_of_drop (d pre rest : List Nat) (p : Nat)
    (hpre : pre.length = 4) (hdrop : d.drop p = pre ++ rest) :
    d.drop (p + 4) = rest := by
  have h₁ := congrArg (List.drop 4) hdrop
  rw [List.drop_drop] at h₁
  rwa [List.drop_left' hpre] at h₁

lemma read_fstring_pos (d payload tl : List Nat) (p : Nat) (L : Int)
    (hL0 : 0 < L) (hL : L < 2 ^ 31)
    (hdrop : d.drop p = encI32le L ++ (payload ++ tl))
    (hplen : payload.length = L.toNat) :
    read_fstring ⟨d, p⟩ =
      match utf8Decode (payload.take (L.toNat - 1)) with
      | some cps => .ok cps ⟨d, p + 4 + L.toNat⟩
      | none => .err .utf8Error ⟨d, p + 4 + L.toNat⟩ := by
  have hlb : -(2 ^ 31) ≤ L := by rw [int_pow31]; omega
  have hread := read_i32_le_of_drop d _ p L hdrop hlb hL
  have hd4 := drop4_of_drop d _ (payload ++ tl) p (encI32le_length L) hdrop
  have hexact : readExact L.toNat ⟨d, p + 4⟩ = .ok payload ⟨d, p + 4 + L.toNat⟩ :=
    readExact_of_drop d payload tl (p + 4) L.toNat hd4 hplen (by omega)
  have ht1 : usizeTryFrom (L - 1) = some (L.toNat - 1) := by
    unfold usizeTryFrom
    rw [if_neg (by omega)]
    congr 1
    omega
  have ht2 : usizeTryFrom L = some L.toNat := by
    unfold usizeTryFrom
    rw [if_neg (by omega)]
  simp only [read_fstring, hread]
  rw [if_neg (by omega), if_neg (by omega)]
  simp only [ht1, ht2, hexact]

lemma wrap32_of_small (x : Int) (h0 : 0 ≤ x) (h1 : x < 2 ^ 31) :
    wrap32 x = x := by
  unfold wrap32 toSigned
  rw [Int.emod_eq_of_lt h0 (by rw [int_pow32]; rw [int_pow31] at h1; omega)]
  rw [if_pos (by rw [int_pow31] at h1; norm_num; omega)]
  exact Int.toNat_of_nonneg h0

lemma read_fstring_neg (d payload tl : List Nat) (p : Nat) (L : Int)
    (hL0 : L < 0) (hno : -L * 2 < 2 ^ 31)
    (hdrop : d.drop p = encI32le L ++ (payload ++ tl))
    (hplen : payload.length = (-L * 2).toNat) :
    read_fstring ⟨d, p⟩ =
      .panicked .unicodeUnsupported ⟨d, p + 4 + (-L * 2).toNat⟩ := by
  have hlb : -(2 ^ 31) ≤ L := by rw [int_pow31] at hno ⊢; omega
  have hub : L < 2 ^ 31 := by rw [int_pow31]; omega
  have hread := read_i32_le_of_drop d _ p L hdrop hlb hub
  have hd4 := drop4_of_drop d _ (payload ++ tl) p (encI32le_length L) hdrop
  have hexact : readExact (-L * 2).toNat ⟨d, p + 4⟩ =
      .ok payload ⟨d, p + 4 + (-L * 2).toNat⟩ :=
    readExact_of_drop d payload tl (p + 4) (-L * 2).toNat hd4 hplen (by omega)
  have hwrap := wrap32_of_small (-L * 2) (by omega) hno
  have htf : usizeTryFrom (wrap32 (-L * 2)) = some (-L * 2).toNat := by
    rw [hwrap]
    unfold usizeTryFrom
    rw [if_neg (by omega)]
  simp only [read_fstring, hread]
  rw [if_neg (by omega), if_pos hL0,
    if_neg (by unfold i32min; rw [int_pow31] at hno ⊢; omega)]
  simp only [htf, hexact]

lemma read_fstring_min (d tl : List Nat) (p : Nat)
    (hdrop : d.drop p = encI32le i32min ++ tl) :
    read_fstring ⟨d, p⟩ = .panicked .invalidFString ⟨d, p + 4⟩ := by
  have hread := read_i32_le_of_drop d tl p i32min hdrop
    (by unfold i32min; exact le_rfl) (by unfold i32min; rw [int_pow31]; omega)
  simp only [read_fstring, hread]
  rw [if_neg (by unfold i32min; rw [int_pow31]; omega),
    if_pos (by unfold i32min; rw [int_pow31]; omega)]
  simp

lemma wrap32_of_large (x : Int) (h0 : 2 ^ 31 ≤ x) (h1 : x < 2 ^ 32) :
    wrap32 x = x - 2 ^ 32 := by
  unfold wrap32 toSigned
  rw [Int.emod_eq_of_lt (by rw [int_pow31] at h0; omega) h1]
  rw [if_neg (by rw [int_pow31] at h0; norm_num; omega)]
  rw [Int.toNat_of_nonneg (by rw [int_pow31] at h0; omega)]

/-- On the negative-length path, when `-L * 2` does not fit in an i32 the
wrapped value is negative, so `usize::try_from` fails: `read_fstring`
returns a range error right after the 4-byte prefix. -/
lemma read_fstring_overflowing_neg (d tl : List Nat) (p : Nat) (L : Int)
    (hL0 : L < 0) (hmin : i32min < L) (hover : 2 ^ 31 ≤ -L * 2)
    (hdrop : d.drop p = encI32le L ++ tl) :
    read_fstring ⟨d, p⟩ = .err .rangeError ⟨d, p + 4⟩ := by
  have hmin' : -(2 ^ 31) < L := by unfold i32min at hmin; exact hmin
  have hub : L < 2 ^ 31 := by rw [int_pow31]; omega
  have hread := read_i32_le_of_drop d tl p L hdrop (le_of_lt hmin') hub
  have hover' : -L * 2 < 2 ^ 32 := by
    rw [int_pow32]
    rw [int_pow31] at hmin'
    omega
  have hwrap := wrap32_of_large (-L * 2) hover hover'
  have htf : usizeTryFrom (wrap32 (-L * 2)) = none := by
    rw [hwrap]
    unfold usizeTryFrom
    rw [if_pos ?_]
    rw [int_pow32]
    rw [int_pow31] at hmin'
    omega
  simp only [read_fstring, hread]
  rw [if_neg (by omega), if_pos hL0, if_neg (by omega)]
  simp only [htf]

lemma read_i32_be_err (d : List Nat) (p : Nat) (h : d.length < p + 4) :
    read_i32_be ⟨d, p⟩ = .err .ioError ⟨d, d.length⟩ := by
  simp only [read_i32_be, readExact_err d p 4 h]

/-! ### Claim theorems -/

/-- Claim C3: for every L ≥ 0 representable as a nonnegative i32 length
prefix and every byte sequence beginning with the 4-byte little-endian
encoding of L followed by 4*L bytes encoding L little-endian 32-bit
integers, `read_array` with a little-endian i32 element decoder returns
exactly those L integers in stream order and consumes exactly 4 + 4*L
bytes total (4 for the prefix), whatever bytes follow. -/
theorem read_array_i32_roundtrip_thm (vals : List Int) (rest : List Nat)
    (hrange : ∀ v ∈ vals, -(2 ^ 31) ≤ v ∧ v < 2 ^ 31)
    (hlen : ((vals.length : Nat) : Int) < 2 ^ 31) :
    read_array decI32le
        ⟨encI32le ((vals.length : Nat) : Int) ++ (encArrayI32 vals ++ rest), 0⟩ =
      .ok vals
        ⟨encI32le ((vals.length : Nat) : Int) ++ (encArrayI32 vals ++ rest),
          4 + 4 * vals.length⟩ := by
  have hdrop :
      (encI32le ((vals.length : Nat) : Int) ++ (encArrayI32 vals ++ rest)).drop 0 =
        encI32le ((vals.length : Nat) : Int) ++ (encArrayI32 vals ++ rest) :=
    List.drop_zero _
  have hread := read_i32_le_of_drop _ _ 0 ((vals.length : Nat) : Int) hdrop
    (by rw [int_pow31]; omega) hlen
  have hd4 := drop4_of_drop _ _ (encArrayI32 vals ++ rest) 0
    (encI32le_length _) hdrop
  have hloop := decodeLoop_i32 vals _ rest 4 hrange (by simpa using hd4)
  simp only [read_array, hread, read_array_with_length, usizeTryFrom]
  rw [if_neg (by omega)]
  simp only [Int.toNat_natCast, Nat.zero_add]
  exact hloop

/-- Claim C3 witness: the crate's own array test vector. -/
theorem read_array_i32_roundtrip_witness :
    read_array decI32le ⟨[2, 0, 0, 0, 3, 0, 0, 0, 4, 0, 0, 0], 0⟩ =
      .ok [3, 4] ⟨[2, 0, 0, 0, 3, 0, 0, 0, 4, 0, 0, 0], 12⟩ := by
  have h := read_array_i32_roundtrip_thm [3, 4] []
    (by intro v hv; fin_cases hv <;> norm_num)
    (by decide)
  exact h

/-- Claim C4: for every length prefix L > 0 read by `read_fstring` from a
stream with at least L remaining payload bytes whose first L - 1 bytes
are valid UTF-8, the operation returns the string decoded from those
first L - 1 bytes, discards the final payload byte without validating it
(the final byte is unconstrained here), and advances the cursor by
exactly 4 + L bytes. -/
theorem read_fstring_positive_returns_text (d payload tl : List Nat)
    (p : Nat) (L : Int) (cps : List Nat)
    (hL0 : 0 < L) (hL : L < 2 ^ 31)
    (hdrop : d.drop p = encI32le L ++ (payload ++ tl))
    (hplen : payload.length = L.toNat)
    (hdec : utf8Decode (payload.take (L.toNat - 1)) = some cps) :
    read_fstring ⟨d, p⟩ = .ok cps ⟨d, p + 4 + L.toNat⟩ := by
  rw [read_fstring_pos d payload tl p L hL0 hL hdrop hplen, hdec]

/-- Claim C4 witness: the spec's own example `[6,0,0,0,H,e,l,l,o,0]`,
with the final byte left unvalidated. -/
theorem read_fstring_positive_witness :
    read_fstring ⟨[6, 0, 0, 0, 72, 101, 108, 108, 111, 0], 0⟩ =
      .ok [72, 101, 108, 108, 111]
        ⟨[6, 0, 0, 0, 72, 101, 108, 108, 111, 0], 10⟩ := by
  have h := read_fstring_positive_returns_text
    [6, 0, 0, 0, 72, 101, 108, 108, 111, 0] [72, 101, 108, 108, 111, 0] []
    0 6 [72, 101, 108, 108, 111]
    (by decide) (by decide) (by decide) (by decide) (by decide)
  exact h

/-- Claim C6: for every length prefix L > 0 read by `read_fstring` from a
stream with at least L remaining payload bytes whose first L - 1 bytes
are not valid UTF-8, the operation fails with a UTF-8 validation error
and returns no (partial) string. -/
theorem read_fstring_invalid_utf8_validation_error (d payload tl : List Nat)
    (p : Nat) (L : Int)
    (hL0 : 0 < L) (hL : L < 2 ^ 31)
    (hdrop : d.drop p = encI32le L ++ (payload ++ tl))
    (hplen : payload.length = L.toNat)
    (hdec : utf8Decode (payload.take (L.toNat - 1)) = none) :
    read_fstring ⟨d, p⟩ = .err .utf8Error ⟨d, p + 4 + L.toNat⟩ := by
  rw [read_fstring_pos d payload tl p L hL0 hL hdrop hplen, hdec]

/-- Claim C6 witness: prefix 2, payload `[0xFF, 0]`; the single text byte
0xFF is not valid UTF-8. -/
theorem read_fstring_invalid_utf8_witness :
    read_fstring ⟨[2, 0, 0, 0, 255, 0], 0⟩ =
      .err .utf8Error ⟨[2, 0, 0, 0, 255, 0], 6⟩ := by
  have h := read_fstring_invalid_utf8_validation_error
    [2, 0, 0, 0, 255, 0] [255, 0] [] 0 2
    (by decide) (by decide) (by decide) (by decide) (by decide)
  exact h

/-- Claim C10: when `read_fstring` fails UTF-8 validation for a length
prefix L > 0 whose L payload bytes were available, the stream cursor has
nonetheless advanced by the full 4 + L bytes: the payload is consumed
before validation, so the typed error is not atomic with respect to the
stream position. -/
theorem read_fstring_utf8_error_consumes_stream (d payload tl : List Nat)
    (p : Nat) (L : Int)
    (hL0 : 0 < L) (hL : L < 2 ^ 31)
    (hdrop : d.drop p = encI32le L ++ (payload ++ tl))
    (hplen : payload.length = L.toNat)
    (hdec : utf8Decode (payload.take (L.toNat - 1)) = none) :
    (read_fstring ⟨d, p⟩).isErr = true ∧
      (read_fstring ⟨d, p⟩).finalStream = ⟨d, p + 4 + L.toNat⟩ := by
  rw [read_fstring_pos d payload tl p L hL0 hL hdrop hplen, hdec]
  exact ⟨rfl, rfl⟩

/-- Claim C10 witness: prefix 3, payload `[0xC3, 0x28, 0]` (truncated
two-byte sequence); the error leaves the cursor at 7 = 4 + 3. -/
theorem read_fstring_utf8_error_consumes_stream_witness :
    (read_fstring ⟨[3, 0, 0, 0, 195, 40, 0], 0⟩).isErr = true ∧
      (read_fstring ⟨[3, 0, 0, 0, 195, 40, 0], 0⟩).finalStream =
        ⟨[3, 0, 0, 0, 195, 40, 0], 7⟩ := by
  have h := read_fstring_utf8_error_consumes_stream
    [3, 0, 0, 0, 195, 40, 0] [195, 40, 0] [] 0 3
    (by decide) (by decide) (by decide) (by decide) (by decide)
  exact h

/-- Claim C7: for every stream whose next 4 bytes decode little-endian to
i32::MIN, `read_fstring` aborts the process (panic) rather than returning
a typed error, with no payload bytes consumed beyond the 4-byte prefix. -/
theorem read_fstring_i32min_panics (d tl : List Nat) (p : Nat)
    (hdrop : d.drop p = encI32le i32min ++ tl) :
    read_fstring ⟨d, p⟩ = .panicked .invalidFString ⟨d, p + 4⟩ :=
  read_fstring_min d tl p hdrop

/-- Claim C7 witness: the bytes `[0,0,0,0x80]` decode to i32::MIN. -/
theorem read_fstring_i32min_panics_witness :
    read_fstring ⟨[0, 0, 0, 128], 0⟩ =
      .panicked .invalidFString ⟨[0, 0, 0, 128], 4⟩ := by
  have h := read_fstring_i32min_panics [0, 0, 0, 128] [] 0 (by decide)
  exact h

/-- Claim C2 (amended): for every length prefix L < 0 whose byte count
-L * 2 still fits in an i32 (equivalently -2^30 < L < 0), `read_fstring`
consumes exactly -L * 2 payload bytes, advancing the cursor past them,
and then unconditionally aborts with the unimplemented-unicode panic,
for every stream holding at least that many remaining payload bytes.
For L ≤ -2^30 the i32 computation `-length * 2` overflows, so this
consume-then-panic behavior does not extend there (see the
counterexample). -/
theorem read_fstring_negative_consumes_then_panics (d payload tl : List Nat)
    (p : Nat) (L : Int)
    (hL0 : L < 0) (hno : -L * 2 < 2 ^ 31)
    (hdrop : d.drop p = encI32le L ++ (payload ++ tl))
    (hplen : payload.length = (-L * 2).toNat) :
    read_fstring ⟨d, p⟩ =
      .panicked .unicodeUnsupported ⟨d, p + 4 + (-L * 2).toNat⟩ :=
  read_fstring_neg d payload tl p L hL0 hno hdrop hplen

/-- Claim C2 witness: prefix -1 (bytes `[0xFF,0xFF,0xFF,0xFF]`) with two
payload bytes; both are consumed before the panic. -/
theorem read_fstring_negative_witness :
    read_fstring ⟨[255, 255, 255, 255, 7, 7], 0⟩ =
      .panicked .unicodeUnsupported ⟨[255, 255, 255, 255, 7, 7], 6⟩ := by
  have h := read_fstring_negative_consumes_then_panics
    [255, 255, 255, 255, 7, 7] [7, 7] [] 0 (-1)
    (by decide) (by decide) (by decide) (by decide)
  exact h

/-- Claim C2 counterexample: for the length prefix L = -2^30 (bytes
`[0,0,0,0xC0]`) and a stream with 2^31 remaining payload bytes, the i32
computation `-length * 2` wraps to -2^31, so `read_fstring` returns a
range error having consumed only the 4 prefix bytes — it neither consumes
the -L * 2 = 2^31 payload bytes nor panics, contradicting the claim for
this L. -/
theorem read_fstring_neg_overflow_counterexample :
    read_fstring ⟨[0, 0, 0, 192] ++ List.replicate (2 ^ 31) 0, 0⟩ =
      .err .rangeError ⟨[0, 0, 0, 192] ++ List.replicate (2 ^ 31) 0, 4⟩ ∧
    read_fstring ⟨[0, 0, 0, 192] ++ List.replicate (2 ^ 31) 0, 0⟩ ≠
      .panicked .unicodeUnsupported
        ⟨[0, 0, 0, 192] ++ List.replicate (2 ^ 31) 0, 4 + 2 ^ 31⟩ := by
  have henc : encI32le (-(2 ^ 30)) = [0, 0, 0, 192] := by decide
  have hdrop : ([0, 0, 0, 192] ++ List.replicate (2 ^ 31) 0).drop 0 =
      encI32le (-(2 ^ 30)) ++ List.replicate (2 ^ 31) 0 := by
    rw [henc, List.drop_zero]
  have hmain := read_fstring_overflowing_neg
    ([0, 0, 0, 192] ++ List.replicate (2 ^ 31) 0) (List.replicate (2 ^ 31) 0)
    0 (-(2 ^ 30)) (by norm_num) (by unfold i32min; norm_num) (by norm_num)
    hdrop
  refine ⟨hmain, ?_⟩
  rw [hmain]
  intro hc
  exact Outcome.noConfusion hc

/-- Claim C1 counterexample: the stream `[1,0,0,0]` declares one array
element but holds no element bytes.  With the crate's own element decoder
(`read_i32::<LittleEndian>().unwrap()`), `read_array` aborts by panic
rather than returning an I/O error: the element decoder has no error
channel, so no element-level failure can surface as a typed error. -/
theorem read_array_element_eof_panics_not_io_error :
    read_array decI32le ⟨[1, 0, 0, 0], 0⟩ =
      .panicked .elementPanic ⟨[1, 0, 0, 0], 4⟩ ∧
    (read_array decI32le ⟨[1, 0, 0, 0], 0⟩).isErr = false := by
  decide

/-- Claim C1 (amended): for a stream shorter than required by a declared
length, each of the eight fixed-width integer readers, the length-prefix
reads of `read_array` / `read_array_be`, and `read_fstring` (for both the
prefix and a positive-length payload) fail with an I/O error rather than
returning truncated or zero-padded data.  Array element decoding is the
exception the code forces: the element decoder is infallible by
signature, so an element that cannot be decoded aborts the whole read by
propagating the decoder's panic — no partial array is returned, but no
typed I/O error is produced either. -/
theorem short_input_io_error_amended :
    (∀ d p, d.length < p + 4 →
      read_i32_le ⟨d, p⟩ = .err .ioError ⟨d, d.length⟩) ∧
    (∀ d p, d.length < p + 4 →
      read_u32_le ⟨d, p⟩ = .err .ioError ⟨d, d.length⟩) ∧
    (∀ d p, d.length < p + 4 →
      read_i32_be ⟨d, p⟩ = .err .ioError ⟨d, d.length⟩) ∧
    (∀ d p, d.length < p + 4 →
      read_u32_be ⟨d, p⟩ = .err .ioError ⟨d, d.length⟩) ∧
    (∀ d p, d.length < p + 8 →
      read_i64_le ⟨d, p⟩ = .err .ioError ⟨d, d.length⟩) ∧
    (∀ d p, d.length < p + 8 →
      read_u64_le ⟨d, p⟩ = .err .ioError ⟨d, d.length⟩) ∧
    (∀ d p, d.length < p + 8 →
      read_i64_be ⟨d, p⟩ = .err .ioError ⟨d, d.length⟩) ∧
    (∀ d p, d.length < p + 8 →
      read_u64_be ⟨d, p⟩ = .err .ioError ⟨d, d.length⟩) ∧
    (∀ (α : Type) (f : ByteStream → Option (α × ByteStream)) d p,
      d.length < p + 4 →
      read_array f ⟨d, p⟩ = .err .ioError ⟨d, d.length⟩) ∧
    (∀ (α : Type) (f : ByteStream → Option (α × ByteStream)) d p,
      d.length < p + 4 →
      read_array_be f ⟨d, p⟩ = .err .ioError ⟨d, d.length⟩) ∧
    (∀ d p, d.length < p + 4 →
      read_fstring ⟨d, p⟩ = .err .ioError ⟨d, d.length⟩) ∧
    (∀ d tl p (L : Int), 0 < L → L < 2 ^ 31 →
      d.drop p = encI32le L ++ tl → d.length < p + 4 + L.toNat →
      read_fstring ⟨d, p⟩ = .err .ioError ⟨d, d.length⟩) ∧
    (∀ (α : Type) (f : ByteStream → Option (α × ByteStream)) (L : Int) s,
      0 < L → f s = none →
      read_array_with_length f L s = .panicked .elementPanic s) := by
  refine ⟨?_, ?_, ?_, ?_, ?_, ?_, ?_, ?_, ?_, ?_, ?_, ?_, ?_⟩
  · intro d p h; simp only [read_i32_le, readExact_err d p 4 h]
  · intro d p h; simp only [read_u32_le, readExact_err d p 4 h]
  · intro d p h; simp only [read_i32_be, readExact_err d p 4 h]
  · intro d p h; simp only [read_u32_be, readExact_err d p 4 h]
  · intro d p h; simp only [read_i64_le, readExact_err d p 8 h]
  · intro d p h; simp only [read_u64_le, readExact_err d p 8 h]
  · intro d p h; simp only [read_i64_be, readExact_err d p 8 h]
  · intro d p h; simp only [read_u64_be, readExact_err d p 8 h]
  · intro α f d p h; simp only [read_array, read_i32_le_err d p h]
  · intro α f d p h; simp only [read_array_be, read_i32_be_err d p h]
  · intro d p h; simp only [read_fstring, read_i32_le_err d p h]
  · intro d tl p L hL0 hL hdrop hshort
    have hlb : -(2 ^ 31) ≤ L := by rw [int_pow31]; omega
    have hread := read_i32_le_of_drop d tl p L hdrop hlb hL
    have ht1 : usizeTryFrom (L - 1) = some (L.toNat - 1) := by
      unfold usizeTryFrom
      rw [if_neg (by omega)]
      congr 1
      omega
    have ht2 : usizeTryFrom L = some L.toNat := by
      unfold usizeTryFrom
      rw [if_neg (by omega)]
    simp only [read_fstring, hread]
    rw [if_neg (by omega), if_neg (by omega)]
    simp only [ht1, ht2, readExact_err d (p + 4) L.toNat (by omega)]
  · intro α f L s hL0 hf
    unfold read_array_with_length usizeTryFrom
    rw [if_neg (by omega)]
    obtain ⟨m, hm⟩ : ∃ m, L.toNat = m + 1 := ⟨L.toNat - 1, by omega⟩
    rw [hm]
    unfold decodeLoop
    rw [hf]

/-- Claim C1 witness: a truncated i32, a truncated u64, a truncated
FString payload (prefix 5, one payload byte), and a panicking element
decode. -/
theorem short_input_io_error_witness :
    read_i32_le ⟨[9], 0⟩ = .err .ioError ⟨[9], 1⟩ ∧
    read_u64_be ⟨[1, 2, 3], 0⟩ = .err .ioError ⟨[1, 2, 3], 3⟩ ∧
    read_fstring ⟨[5, 0, 0, 0, 65], 0⟩ = .err .ioError ⟨[5, 0, 0, 0, 65], 5⟩ ∧
    read_array_with_length decI32le 3 ⟨[], 0⟩ =
      .panicked .elementPanic ⟨[], 0⟩ := by
  obtain ⟨h1, h2, h3, h4, h5, h6, h7, h8, h9, h10, h11, h12, h13⟩ :=
    short_input_io_error_amended
  exact ⟨h1 [9] 0 (by decide), h8 [1, 2, 3] 0 (by decide),
    h12 [5, 0, 0, 0, 65] [65] 0 5 (by decide) (by decide) (by decide)
      (by decide),
    h13 Int decI32le 3 ⟨[], 0⟩ (by decide) (by decide)⟩

/-- Claim C5: for every negative length L supplied to
`read_array_with_length` — passed directly by the caller, or read from
the stream by `read_array` / `read_array_be` — the operation returns the
typed range error from `usize::try_from` rather than crashing. -/
theorem negative_length_typed_range_error :
    (∀ (α : Type) (f : ByteStream → Option (α × ByteStream)) (L : Int) s,
      L < 0 → read_array_with_length f L s = .err .rangeError s) ∧
    (∀ (α : Type) (f : ByteStream → Option (α × ByteStream)) (L : Int) d tl p,
      L < 0 → -(2 ^ 31) ≤ L → d.drop p = encI32le L ++ tl →
      read_array f ⟨d, p⟩ = .err .rangeError ⟨d, p + 4⟩) ∧
    (∀ (α : Type) (f : ByteStream → Option (α × ByteStream)) (L : Int) d tl p,
      L < 0 → -(2 ^ 31) ≤ L → d.drop p = encI32be L ++ tl →
      read_array_be f ⟨d, p⟩ = .err .rangeError ⟨d, p + 4⟩) := by
  refine ⟨?_, ?_, ?_⟩
  · intro α f L s hL
    unfold read_array_with_length usizeTryFrom
    rw [if_pos hL]
  · intro α f L d tl p hL hlb hdrop
    have hub : L < 2 ^ 31 := by rw [int_pow31]; omega
    have hread := read_i32_le_of_drop d tl p L hdrop hlb hub
    simp only [read_array, hread, read_array_with_length, usizeTryFrom]
    rw [if_pos hL]
  · intro α f L d tl p hL hlb hdrop
    have hub : L < 2 ^ 31 := by rw [int_pow31]; omega
    have hread := read_i32_be_of_drop d tl p L hdrop hlb hub
    simp only [read_array_be, hread, read_array_with_length, usizeTryFrom]
    rw [if_pos hL]

/-- Claim C5 witness: a caller-supplied length -5, a little-endian prefix
-1 (`[0xFF,0xFF,0xFF,0xFF]`), and a big-endian prefix -2
(`[0xFF,0xFF,0xFF,0xFE]`), all yielding the typed range error. -/
theorem negative_length_typed_range_error_witness :
    read_array_with_length decI32le (-5) ⟨[1, 2], 0⟩ =
      .err .rangeError ⟨[1, 2], 0⟩ ∧
    read_array decI32le ⟨[255, 255, 255, 255], 0⟩ =
      .err .rangeError ⟨[255, 255, 255, 255], 4⟩ ∧
    read_array_be decI32le ⟨[255, 255, 255, 254], 0⟩ =
      .err .rangeError ⟨[255, 255, 255, 254], 4⟩ := by
  obtain ⟨h1, h2, h3⟩ := negative_length_typed_range_error
  exact ⟨h1 Int decI32le (-5) ⟨[1, 2], 0⟩ (by decide),
    h2 Int decI32le (-1) [255, 255, 255, 255] [] 0
      (by decide) (by decide) (by decide),
    h3 Int decI32le (-2) [255, 255, 255, 254] [] 0
      (by decide) (by decide) (by decide)⟩

/-- Claim C8: for every explicit nonnegative length L and every element
decoder, `read_array_with_length` consumes no length prefix and behaves
as the L-fold sequential iteration of the decoder on the given stream:
whenever iterating the decoder L consecutive times from `s` yields the
elements `xs` (in call order) and final stream `s₂`, the operation
returns exactly those L elements with the cursor sitting at `s₂`, i.e.
immediately after the last decoded element's bytes. -/
theorem read_array_with_length_refines_iteration
    (α : Type) (f : ByteStream → Option (α × ByteStream)) (L : Int)
    (s s₂ : ByteStream) (xs : List α)
    (hL : 0 ≤ L) (hiter : specIterDecode f L.toNat s = some (xs, s₂)) :
    read_array_with_length f L s = .ok xs s₂ ∧ xs.length = L.toNat := by
  have h := decodeLoop_eq_specIter f L.toNat s xs s₂ hiter
  unfold read_array_with_length usizeTryFrom
  rw [if_neg (by omega)]
  exact h

/-- Claim C8 witness: two i32 elements decoded with no length prefix in
the stream. -/
theorem read_array_with_length_refines_iteration_witness :
    read_array_with_length decI32le 2 ⟨[3, 0, 0, 0, 4, 0, 0, 0], 0⟩ =
      .ok [3, 4] ⟨[3, 0, 0, 0, 4, 0, 0, 0], 8⟩ ∧
    ([3, 4] : List Int).length = (2 : Int).toNat :=
  read_array_with_length_refines_iteration Int decI32le 2
    ⟨[3, 0, 0, 0, 4, 0, 0, 0], 0⟩ ⟨[3, 0, 0, 0, 4, 0, 0, 0], 8⟩ [3, 4]
    (by decide) (by decide)

lemma with_length_err_inv (f : ByteStream → Option (α × ByteStream))
    (L : Int) (s : ByteStream) (e : RError) (s₂ : ByteStream)
    (h : read_array_with_length f L s = .err e s₂) :
    L < 0 ∧ e = .rangeError ∧ s₂ = s := by
  unfold read_array_with_length usizeTryFrom at h
  by_cases hL : L < 0
  · rw [if_pos hL] at h
    simp only [Outcome.err.injEq] at h
    exact ⟨hL, h.1.symm, h.2.symm⟩
  · rw [if_neg hL] at h
    exact absurd h (decodeLoop_not_err f L.toNat s e s₂)

/-- Claim C9: the element decoder's signature provides no error channel,
so no element-level failure can surface as a typed error.  For every
nonnegative L and every total (non-panicking) decoder,
`read_array_with_length` returns Ok with exactly L elements; a typed
error from `read_array_with_length` occurs only for a negative length,
and a typed error from `read_array` / `read_array_be` occurs only when
reading the length prefix fails or the decoded length is negative. -/
theorem array_read_err_only_length_related :
    (∀ (α : Type) (f : ByteStream → Option (α × ByteStream)) (L : Int) s,
      0 ≤ L → (∀ t, (f t).isSome) →
      ∃ xs s₂, read_array_with_length f L s = .ok xs s₂ ∧
        xs.length = L.toNat) ∧
    (∀ (α : Type) (f : ByteStream → Option (α × ByteStream)) (L : Int) s e s₂,
      read_array_with_length f L s = .err e s₂ →
      L < 0 ∧ e = .rangeError ∧ s₂ = s) ∧
    (∀ (α : Type) (f : ByteStream → Option (α × ByteStream)) s e s₂,
      read_array f s = .err e s₂ →
      read_i32_le s = .err e s₂ ∨
        ∃ L, read_i32_le s = .ok L s₂ ∧ L < 0 ∧ e = .rangeError) ∧
    (∀ (α : Type) (f : ByteStream → Option (α × ByteStream)) s e s₂,
      read_array_be f s = .err e s₂ →
      read_i32_be s = .err e s₂ ∨
        ∃ L, read_i32_be s = .ok L s₂ ∧ L < 0 ∧ e = .rangeError) := by
  refine ⟨?_, ?_, ?_, ?_⟩
  · intro α f L s hL hf
    unfold read_array_with_length usizeTryFrom
    rw [if_neg (by omega)]
    exact decodeLoop_total f hf L.toNat s
  · intro α f L s e s₂ h
    exact with_length_err_inv f L s e s₂ h
  · intro α f s e s₂ h
    unfold read_array at h
    cases hr : read_i32_le s with
    | ok L s₁ =>
      rw [hr] at h
      simp only at h
      obtain ⟨hL, he, hs⟩ := with_length_err_inv f L s₁ e s₂ h
      subst hs
      exact Or.inr ⟨L, rfl, hL, he⟩
    | err e₁ s₁ =>
      rw [hr] at h
      simp only [Outcome.err.injEq] at h
      exact Or.inl (by rw [h.1, h.2])
    | panicked p₁ s₁ =>
      rw [hr] at h
      exact Outcome.noConfusion h
  · intro α f s e s₂ h
    unfold read_array_be at h
    cases hr : read_i32_be s with
    | ok L s₁ =>
      rw [hr] at h
      simp only at h
      obtain ⟨hL, he, hs⟩ := with_length_err_inv f L s₁ e s₂ h
      subst hs
      exact Or.inr ⟨L, rfl, hL, he⟩
    | err e₁ s₁ =>
      rw [hr] at h
      simp only [Outcome.err.injEq] at h
      exact Or.inl (by rw [h.1, h.2])
    | panicked p₁ s₁ =>
      rw [hr] at h
      exact Outcome.noConfusion h

/-- Claim C9 witness: a total decoder consuming one byte yields Ok with
exactly two elements; a negative little-endian prefix makes `read_array`
fail with the range error attributed to the decoded negative length. -/
theorem array_read_err_only_length_related_witness :
    (∃ xs s₂,
      read_array_with_length (fun s => some ((0 : Int), ⟨s.data, s.pos + 1⟩))
          2 ⟨[8, 8, 8], 0⟩ = .ok xs s₂ ∧ xs.length = (2 : Int).toNat) ∧
    (read_i32_le ⟨[254, 255, 255, 255], 0⟩ =
        .err .rangeError ⟨[254, 255, 255, 255], 4⟩ ∨
      ∃ L, read_i32_le ⟨[254, 255, 255, 255], 0⟩ =
          .ok L ⟨[254, 255, 255, 255], 4⟩ ∧ L < 0 ∧
        (RError.rangeError : RError) = .rangeError) := by
  obtain ⟨h1, h2, h3, h4⟩ := array_read_err_only_length_related
  exact ⟨h1 Int (fun s => some ((0 : Int), ⟨s.data, s.pos + 1⟩))
      2 ⟨[8, 8, 8], 0⟩ (by decide) (fun t => rfl),
    h3 Int decI32le ⟨[254, 255, 255, 255], 0⟩ .rangeError
      ⟨[254, 255, 255, 255], 4⟩ (by decide)⟩
